import Mathlib

/-!
Verification development for the `virgo-snana` supernova-photometry
ingestion pipeline (`parsers.py`, `process_data.py`, `config.py`).

The Python code is shallowly embedded: pandas/astropy tables become a
`Table` of named columns over a `Cell` value type, float `NaN`/`inf`
become the explicit `Val` constructors, every fallible Python function
becomes an `Option`- or `Except`-valued Lean function, and the broad
`try/except ...: return None` wrappers of the parsers become total
`Option`-valued functions (the catch-all guarantees every internal
failure surfaces as `None`).
-/

namespace Virgo

/-- A float64 value as the pipeline observes it: a finite rational,
positive/negative infinity, or NaN (which also encodes "missing"). -/
inductive Val where
  | fin (q : ℚ)
  | pinf
  | ninf
  | nan
deriving DecidableEq, Repr

/-- `np.isnan`. -/
def Val.isNan : Val → Bool
  | .nan => true
  | _ => false

/-- `np.isfinite`: true exactly for finite numbers. -/
def Val.isFinite : Val → Bool
  | .fin _ => true
  | _ => false

/-- A cell of a pandas/astropy table: either a string or a float value. -/
inductive Cell where
  | str (s : String)
  | num (v : Val)
deriving DecidableEq, Repr

/-! ### Kernel-evaluable string utilities

Core `String` functions such as `trim`, `contains` and `splitOn` are
implemented through `Substring` machinery that the kernel cannot
evaluate, so the embedding uses these character-list equivalents. -/

def strContains (s : String) (c : Char) : Bool := s.data.contains c

def strTrim (s : String) : String :=
  String.mk (((s.data.dropWhile Char.isWhitespace).reverse.dropWhile
    Char.isWhitespace).reverse)

def strStartsWith (s p : String) : Bool := p.data.isPrefixOf s.data

def strToLower (s : String) : String := String.mk (s.data.map Char.toLower)

def strTake (s : String) (n : Nat) : String := String.mk (s.data.take n)

/-- `pat` occurs as a contiguous substring (`pat in s` in Python). -/
def containsSubAux (pat : List Char) : List Char → Bool
  | [] => pat.isEmpty
  | c :: rest => pat.isPrefixOf (c :: rest) || containsSubAux pat rest

def containsTok (s tok : String) : Bool := containsSubAux tok.data s.data

/-- Split on a single separator character (`str.split(sep)` semantics:
`""` splits to `[""]`, separators delimit possibly-empty fields). -/
def splitChAux (c : Char) : List Char → List Char → List String
  | [], cur => [String.mk cur.reverse]
  | x :: rest, cur =>
    if x = c then String.mk cur.reverse :: splitChAux c rest []
    else splitChAux c rest (x :: cur)

def splitCh (c : Char) (s : String) : List String := splitChAux c s.data []

/-- Digit-string to `Nat`; `none` if any character is not a digit. -/
def digitsVal (cs : List Char) : Option Nat :=
  cs.foldl
    (fun acc c =>
      match acc with
      | none => none
      | some n => if c.isDigit then some (n * 10 + (c.toNat - 48)) else none)
    (some 0)

/-- The characters of `s` with a leading sign removed. -/
def signBody (s : String) : List Char :=
  match s.data with
  | '-' :: r => r
  | '+' :: r => r
  | r => r

/-- Parse a decimal literal (optional sign, optional fractional part) the
way Python's `float()` accepts it.  Exponent notation is not modelled
(no input file in this repository uses it). -/
def parseRat (s : String) : Option ℚ :=
  let neg := s.data.head? = some '-'
  match splitChAux '.' (signBody s) [] with
  | [ip] =>
    if ip = "" then none
    else (digitsVal ip.data).map (fun n => if neg then -(n : ℚ) else (n : ℚ))
  | [ip, fp] =>
    if ip = "" && fp = "" then none
    else
      match digitsVal ip.data, digitsVal fp.data with
      | some i, some f =>
        let q : ℚ := (i : ℚ) + (f : ℚ) / ((10 : ℚ) ^ fp.data.length)
        some (if neg then -q else q)
      | _, _ => none
  | _ => none

/-- Numeric reading of a string, as Python `float()` does for the forms
used in these files: decimal literals and the infinity spellings. -/
def strToValOpt (s : String) : Option Val :=
  let neg := s.data.head? = some '-'
  let low := strToLower (String.mk (signBody s))
  if low = "inf" || low = "infinity" then some (if neg then .ninf else .pinf)
  else (parseRat s).map .fin

/-- pandas' default missing-value spellings (the ones that can occur
here); such cells read as NaN. -/
def naStrings : List String :=
  ["", "null", "NULL", "NaN", "nan", "NA", "N/A", "n/a"]

/-- How `pd.read_csv` materialises one textual field: NA spellings and
numeric literals become floats, everything else stays a string. -/
def cellOfString (s : String) : Cell :=
  if s ∈ naStrings then .num .nan
  else
    match strToValOpt s with
    | some v => .num v
    | none => .str s

/-- `pd.to_numeric(x, errors='coerce')` on one string: unparsable input
degrades to NaN. -/
def strToVal (s : String) : Val :=
  if strTrim s ∈ naStrings then .nan
  else (strToValOpt (strTrim s)).getD .nan

/-- `pd.to_numeric(errors='coerce')` on one cell. -/
def cellToNumeric : Cell → Val
  | .num v => v
  | .str s => strToVal s

/-- String rendering of a cell (`astype(str)`); numeric formatting of a
float is not load-bearing for any claim. -/
def valRender : Val → String
  | .fin q => toString q
  | .pinf => "inf"
  | .ninf => "-inf"
  | .nan => "nan"

def cellRender : Cell → String
  | .str s => s
  | .num v => valRender v

/-- `cellVal` reads a cell as a float; used only on columns already run
through `to_numeric`, where every cell is numeric. -/
def cellVal : Cell → Val
  | .num v => v
  | .str _ => .nan

/-- A pandas `DataFrame` / astropy `Table`: named columns over rows.
Real tables are rectangular; rectangularity is carried as an explicit
side condition (`Table.rect`) where a proof needs it. -/
structure Table where
  header : List String
  rows : List (List Cell)
deriving DecidableEq, Repr

/-- All rows have exactly one cell per column. -/
def Table.rect (t : Table) : Prop :=
  ∀ row ∈ t.rows, row.length = t.header.length

instance (t : Table) : Decidable t.rect := by
  unfold Table.rect; infer_instance

/-- Index of a column name (first match, as pandas column lookup). -/
def colIdx : List String → String → Option Nat
  | [], _ => none
  | c :: cs, n => if c = n then some 0 else (colIdx cs n).map (· + 1)

/-- The cell of `row` in column `n` (out-of-range reads as NaN; real
tables are rectangular so this default is never observed). -/
def cellAtH (h : List String) (row : List Cell) (n : String) : Cell :=
  match colIdx h n with
  | some i => row.getD i (Cell.num .nan)
  | none => Cell.num .nan

def valAtH (h : List String) (row : List Cell) (n : String) : Val :=
  cellVal (cellAtH h row n)

/-- `tbl.rename_column(specific, generic)` applied for every map entry
whose source column exists (lines 11-13 of `parsers.py`). -/
def renameStage (cmap : List (String × String)) (t : Table) : Table :=
  { t with
    header :=
      cmap.foldl
        (fun h p =>
          if p.2 ∈ h then h.map (fun c => if c = p.2 then p.1 else c) else h)
        t.header }

/-- One step of the coercion loop (lines 15-19 of `parsers.py`): an
existing column is run through `to_numeric`; a missing `magerr` column
is created as all-NaN; a missing `time`/`mag` column is left missing. -/
def coerceCol (t : Table) (n : String) : Table :=
  match colIdx t.header n with
  | some i =>
    { t with
      rows :=
        t.rows.map (fun row =>
          row.set i (Cell.num (cellToNumeric (row.getD i (Cell.num .nan))))) }
  | none =>
    if n = "magerr" then
      { header := t.header ++ ["magerr"],
        rows := t.rows.map (· ++ [Cell.num .nan]) }
    else t

def coerceStage (t : Table) : Table :=
  coerceCol (coerceCol (coerceCol t "time") "mag") "magerr"

/-- A row survives line 22 of `parsers.py` iff neither its time nor its
mag is NaN.  (`np.isnan`, not `np.isfinite`: infinities survive.) -/
def rowGood (h : List String) (row : List Cell) : Bool :=
  !(valAtH h row "time").isNan && !(valAtH h row "mag").isNan

/-- Line 22: `tbl = tbl[~np.isnan(tbl['time']) & ~np.isnan(tbl['mag'])]`. -/
def filterStage (t : Table) : Table :=
  { t with rows := t.rows.filter (rowGood t.header) }

/-- Add a constant column when absent (lines 24-25 of `parsers.py`). -/
def addColIfMissing (t : Table) (n : String) (c : Cell) : Table :=
  if n ∈ t.header then t
  else { header := t.header ++ [n], rows := t.rows.map (· ++ [c]) }

/-- `tbl[n] = tbl[n].astype(str)` (line 27). -/
def astypeStrCol (t : Table) (n : String) : Table :=
  match colIdx t.header n with
  | some i =>
    { t with
      rows :=
        t.rows.map (fun row =>
          row.set i (Cell.str (cellRender (row.getD i (Cell.num .nan))))) }
  | none => t

def fillStage (t : Table) : Table :=
  astypeStrCol
    (addColIfMissing (addColIfMissing t "band" (.str "UNKNOWN"))
      "reference" (.str "N/A"))
    "band"

def fiveCols : List String := ["time", "mag", "magerr", "band", "reference"]

/-- `tbl['time','mag','magerr','band','reference']` (line 29). -/
def projectTo5 (t : Table) : Table :=
  { header := fiveCols,
    rows := t.rows.map (fun row => fiveCols.map (cellAtH t.header row)) }

/-- Lines 11-19: rename then coerce. -/
def sanPre (cmap : List (String × String)) (t : Table) : Table :=
  coerceStage (renameStage cmap t)

/-- Lines 22-27: row filter then column defaults and band stringing. -/
def sanInner (t : Table) : Table :=
  fillStage (filterStage t)

/-- `_sanitize_and_standardize` (`parsers.py` lines 9-29): rename via
the alias map, coerce `time`/`mag`/`magerr`, require `time` and `mag`
columns, drop rows with NaN time or mag, default `band`/`reference`,
string-coerce `band`, and return the five canonical columns — or `None`
when no row survives. -/
def sanitize_and_standardize (t : Table) (cmap : List (String × String)) :
    Option Table :=
  if "time" ∈ (sanPre cmap t).header ∧ "mag" ∈ (sanPre cmap t).header then
    if 0 < (sanInner (sanPre cmap t)).rows.length then
      some (projectTo5 (sanInner (sanPre cmap t)))
    else none
  else none

/-! ## Raw files and parsers (`parsers.py`) -/

/-- A raw input file: a text file as its lines, or a FITS file as its
list of HDU tables (index 0 the primary HDU, index 1 the first data
extension).  Opening a FITS file as text raises `UnicodeDecodeError`
and opening text as FITS raises inside `fits.open`; both are caught by
each parser's catch-all `except`, so across representations a parser of
the other family returns `None`. -/
inductive RawFile where
  | text (lines : List String)
  | fits (hdus : List Table)
deriving DecidableEq, Repr

/-- Every table inside the file is rectangular (always true of real
pandas/astropy/FITS tables). -/
def RawFile.rect : RawFile → Prop
  | .text _ => True
  | .fits hdus => ∀ t ∈ hdus, t.rect

instance (f : RawFile) : Decidable f.rect := by
  cases f <;> unfold RawFile.rect <;> infer_instance

/-- Pad a row with NaN cells up to the header width (pandas fills short
rows with NaN). -/
def padCells (cs : List Cell) (n : Nat) : List Cell :=
  cs ++ List.replicate (n - cs.length) (Cell.num .nan)

/-- `pd.read_csv(file, sep=sep)`: first line is the header; a data row
with more fields than the header is a tokenizing error (`None` through
the caller's catch-all); shorter rows are NaN-padded; fields are
materialised with pandas' numeric/NA inference. -/
def readDelim (sep : Char) (lines : List String) : Option Table :=
  match lines with
  | [] => none
  | h :: rest =>
    let header := splitCh sep h
    let rawRows := rest.map (splitCh sep)
    if rawRows.any (fun r => header.length < r.length) then none
    else
      some
        { header := header,
          rows := rawRows.map (fun r => padCells (r.map cellOfString) header.length) }

/-- `to_numeric` on a column that must exist (`df[n]` raises `KeyError`
when absent, which the parser's catch-all turns into `None`). -/
def requireCoerce (t : Table) (n : String) : Option Table :=
  match colIdx t.header n with
  | some i =>
    some
      { t with
        rows :=
          t.rows.map (fun row =>
            row.set i (Cell.num (cellToNumeric (row.getD i (Cell.num .nan))))) }
  | none => none

/-- Strip leading/trailing occurrences of one character
(`.str.strip("'")` / `.str.strip('"')`). -/
def stripEdge (c : Char) (s : String) : String :=
  String.mk (((s.data.dropWhile (· = c)).reverse.dropWhile (· = c)).reverse)

/-- `df['band'].astype(str).str.strip().str.strip("'").str.strip('"')`
on a column that must exist. -/
def requireBandStrip (t : Table) : Option Table :=
  match colIdx t.header "band" with
  | some i =>
    some
      { t with
        rows :=
          t.rows.map (fun row =>
            row.set i
              (Cell.str
                (stripEdge '"'
                  (stripEdge '\''
                    (strTrim (cellRender (row.getD i (Cell.num .nan)))))))) }
  | none => none

/-- `df[ns]`: select the named columns in order; a missing name raises
`KeyError` (hence `None` through the catch-all). -/
def projectRequire (t : Table) (ns : List String) : Option Table :=
  if ns.all (· ∈ t.header) then
    some { header := ns, rows := t.rows.map (fun row => ns.map (cellAtH t.header row)) }
  else none

/-- `parse_csv` before its final `_sanitize_and_standardize` call
(`parsers.py` lines 237-262): plain comma-separated read, alias
renaming, numeric coercion of `mag`/`time`/`magerr`, quote-stripping of
`band`, selection of the five canonical columns.  There is no
applicability fingerprint: any file whose comma-split columns contain
the aliases is accepted. -/
def csvRenameMap : List (String × String) :=
  [("time", "Julian Date"), ("day", "Gregorian Day"), ("mag", "Magnitude"),
   ("band", "Band"), ("reference", "Ref"), ("magerr", "Magerr")]

def prepCsv : RawFile → Option (Table × List (String × String))
  | .fits _ => none
  | .text lines =>
    (readDelim ',' lines).bind fun t0 =>
    (requireCoerce (renameStage csvRenameMap t0) "mag").bind fun t2 =>
    (requireCoerce t2 "time").bind fun t3 =>
    (requireCoerce t3 "magerr").bind fun t4 =>
    (requireBandStrip t4).bind fun t5 =>
    (projectRequire t5 fiveCols).map fun t6 => (t6, [])

def parse_csv (f : RawFile) : Option Table :=
  (prepCsv f).bind fun x => sanitize_and_standardize x.1 x.2

/-- `parse_txt`'s structural fingerprint (`parsers.py` line 41): all
four header tokens occur in the first line. -/
def fpTxtHeader (h : String) : Bool :=
  containsTok h "Julian Date" && containsTok h "Gregorian Day" &&
    containsTok h "Magnitude" && containsTok h "Indmag and Band"

def fpTxt : RawFile → Bool
  | .text lines => fpTxtHeader ((lines.head?).getD "")
  | .fits _ => false

/-- `parse_txt` before its final sanitize call (`parsers.py` lines
33-55): fingerprint check, tab-separated read, alias renaming. -/
def txtRenameMap : List (String × String) :=
  [("time", "Julian Date"), ("mag", "Magnitude"), ("band", "Indmag and Band")]

def prepTxt : RawFile → Option (Table × List (String × String))
  | .fits _ => none
  | .text lines =>
    if fpTxtHeader ((lines.head?).getD "") then
      (readDelim '\t' lines).map fun t0 => (renameStage txtRenameMap t0, [])
    else none

def parse_txt (f : RawFile) : Option Table :=
  (prepTxt f).bind fun x => sanitize_and_standardize x.1 x.2

/-- Split a line on runs of two or more spaces (`sep=r'\s{2,}'` with the
python engine); a single space stays inside the field.  `cur` is the
current field reversed, `p` counts the spaces seen since its last
non-space character. -/
def splitRun : List Char → List Char → Nat → List String
  | [], cur, p =>
    if 2 ≤ p then [String.mk cur.reverse, ""]
    else [String.mk (List.replicate p ' ' ++ cur).reverse]
  | c :: rest, cur, p =>
    if c = ' ' then splitRun rest cur (p + 1)
    else if 2 ≤ p then String.mk cur.reverse :: splitRun rest [c] 0
    else splitRun rest (c :: (List.replicate p ' ' ++ cur)) 0

def splitWs2 (s : String) : List String := splitRun s.data [] 0

/-- Replace the literal strings `null`/`nul` by NaN in a column
(`.replace({'null': np.nan, 'nul': np.nan})`). -/
def replaceNullCol (t : Table) (n : String) : Table :=
  match colIdx t.header n with
  | some i =>
    { t with
      rows :=
        t.rows.map (fun row =>
          let c := row.getD i (Cell.num .nan)
          if c = Cell.str "null" ∨ c = Cell.str "nul" then
            row.set i (Cell.num .nan)
          else row) }
  | none => t

/-- The non-comment, non-limit lines of the notes format. -/
def notesLines (raw : List String) : List String :=
  raw.filter
    (fun l =>
      !(strStartsWith (strTrim l) "#") && !(strContains l '>') &&
        !(strContains l '<'))

/-- The whitespace-split data rows (all lines after the header). -/
def notesRows (raw : List String) : List (List Cell) :=
  ((notesLines raw).drop 1).map (fun l => (splitWs2 l).map cellOfString)

/-- `parse_notes_and_limits` before its final sanitize call
(`parsers.py` lines 152-192): strip comment lines and rows containing
`<`/`>`, require a header plus at least one data line, split on runs of
two or more spaces, require exactly seven columns (the
`df.columns = [...]` assignment raises otherwise), map `null`/`nul`
magerr entries to NaN, coerce `mag`/`magerr`/`time`, and keep
time/mag/magerr/band plus the reference column.  No applicability
fingerprint is inspected before the full parse. -/
def prepNotes : RawFile → Option (Table × List (String × String))
  | .fits _ => none
  | .text raw =>
    if (notesLines raw).length < 2 then none
    else if (notesRows raw).any
        (fun r => (((notesRows raw).head?).map (·.length)).getD 0 < r.length) then
      none
    else if (((notesRows raw).head?).map (·.length)).getD 0 = 7 then
      (requireCoerce
        { header := ["time", "gregorian", "mag", "magerr", "band", "reference",
            "notes"],
          rows := (notesRows raw).map (fun r => padCells r 7) } "mag").bind
        fun ta =>
      (requireCoerce (replaceNullCol ta "magerr") "magerr").bind fun tb =>
      (requireCoerce tb "time").bind fun tc =>
      (projectRequire tc fiveCols).map fun td => (td, [])
    else none

def parse_notes_and_limits (f : RawFile) : Option Table :=
  (prepNotes f).bind fun x => sanitize_and_standardize x.1 x.2

/-- `parse_fit_vizier`'s structural fingerprint (`parsers.py` lines
113-115): at least one FITS extension whose table has a `band` column. -/
def fpFit : RawFile → Bool
  | .text _ => false
  | .fits hdus =>
    match hdus with
    | _ :: dat :: _ => decide ("band" ∈ dat.header)
    | _ => false

/-- `parse_fit_vizier` before its final sanitize call (`parsers.py`
lines 109-118): fingerprint check, then exclusion of rows whose band
label contains a parenthesis (colour indices). -/
def prepFit : RawFile → Option (Table × List (String × String))
  | .text _ => none
  | .fits hdus =>
    match hdus with
    | _ :: dat :: _ =>
      if "band" ∈ dat.header then
        some
          ({ dat with
             rows :=
               dat.rows.filter
                 (fun row => !(strContains (cellRender (cellAtH dat.header row "band")) '(')) },
           [("time", "JD"), ("mag", "m")])
      else none
    | _ => none

def parse_fit_vizier (f : RawFile) : Option Table :=
  (prepFit f).bind fun x => sanitize_and_standardize x.1 x.2

/-- The parser chain in declaration order (`parsers.py` lines 306-319). -/
def ALL_PARSERS : List (RawFile → Option Table) :=
  [parse_csv, parse_txt, parse_notes_and_limits, parse_fit_vizier]

/-- The fallback loop of `process_supernova` (`process_data.py` lines
60-65): the first parser returning a non-`None`, non-empty table wins;
all exhausted means the file is unparsable. -/
def tryParse : List (RawFile → Option Table) → RawFile → Option Table
  | [], _ =>  none
  | p :: ps, f =>
    match p f with
    | some t => if 0 < t.rows.length then some t else tryParse ps f
    | none => tryParse ps f

/-! ## Per-object processing (`process_data.py`) -/

/-- A row of a sanitized table, whose shape is fixed to the five
canonical columns. -/
structure SRow where
  time : Val
  mag : Val
  magerr : Val
  band : String
  reference : String
deriving DecidableEq, Repr

/-- Read the rows of a sanitized five-column table. -/
def toSRows (t : Table) : List SRow :=
  t.rows.map (fun row =>
    { time := valAtH t.header row "time",
      mag := valAtH t.header row "mag",
      magerr := valAtH t.header row "magerr",
      band := cellRender (cellAtH t.header row "band"),
      reference := cellRender (cellAtH t.header row "reference") })

/-- The deduplication key of line 74: the (`time`, `mag`) pair. -/
def obsKey (r : SRow) : Val × Val := (r.time, r.mag)

/-- `drop_duplicates(subset=['time','mag'], keep='first')`: one pass,
keeping each row whose key has not been seen before. -/
def dedupAux : List SRow → List (Val × Val) → List SRow
  | [], _ => []
  | x :: xs, seen =>
    if obsKey x ∈ seen then dedupAux xs seen
    else x :: dedupAux xs (obsKey x :: seen)

def dedupTM (l : List SRow) : List SRow := dedupAux l []

/-- Lines 73-74: `vstack` of the per-file tables (all share the five
canonical columns, so the outer join is the plain concatenation in file
declaration order) followed by the (`time`, `mag`) deduplication. -/
def mergeObservations (ts : List (List SRow)) : List SRow :=
  dedupTM ts.flatten

/-- `BAND_MAP` (`process_data.py` lines 13-26). -/
def BAND_MAP : List (String × String) :=
  [("U", "bessellux"), ("B", "bessellb"), ("V", "bessellv"), ("R", "bessellr"),
   ("I", "besselli"), ("pg", "standard::b"), ("pv", "standard::v"),
   ("m_v", "bessellv"), ("m_pg", "standard::b"), ("B_max", "bessellb"),
   ("blue", "bessellb"), ("red", "bessellr"), ("'blue'", "bessellb"),
   ("'red'", "bessellr"), ("UNKNOWN", "standard::u"), ("C", "standard::b")]

/-- `KNOWN_BANDS` (`process_data.py` lines 29-31). -/
def KNOWN_BANDS : List String :=
  ["skymapperr", "lsstu", "csphs", "cspi", "ps1::z", "sdssu", "ps1::i", "f250m",
   "sdss::g", "keplercam::v", "f1280w", "uvf606w", "f1500w", "gotob", "sdssz",
   "f162m", "f210m", "bessellb", "nicmos2::f110w", "2massks", "f850lp", "2massj",
   "uvf775w", "ps1::w", "f560w", "gaia::grp", "f140w", "ztf::g", "f360m",
   "uvot::uvw2", "f098m", "lsstz", "f127m", "f182m", "atlasc", "f090w", "ztfr",
   "nicf160w", "sdss::i", "hsc::g", "hsc::r", "megacam6::z", "f763m", "f160w",
   "f070w", "hsc::r2", "galex::fuv", "f430m", "hsc::z", "cspjs", "f438w",
   "sdss::r", "uvot::u", "f2100w", "f689m", "nicf110w", "f1800w", "f350lp",
   "cspu", "acswf::f775w", "cspv3009", "standard::v", "skymapperz", "f335m",
   "f2550w", "keplercam::us", "f625w", "f184", "f218w", "acswf::f606w", "lsstg",
   "desr", "gotog", "swope2::h", "f356w", "swope2::v1", "hsc::y", "swope2::i",
   "f480m", "swope2::g", "f606w", "f105w", "swope2::v2", "ztfg", "sdssi",
   "besselli", "megacam6::i", "desg", "f225w", "f2300c", "ps1::open", "f555w",
   "f140m", "cspb", "sdss::u", "ztf::r", "acswf::f850lp", "uvf555w", "ztf::i",
   "4shooter2::us", "f845m", "f770w", "f153m", "cspk", "lssti", "desi", "f1550c",
   "f129", "2massh", "cspr", "f390w", "f125w", "csphd", "swope2::r",
   "nicmos2::f160w", "sdss::z", "f300x", "bessellr", "skymapperg", "f213",
   "galex::nuv", "sdssg", "cspyd", "swope2::u", "cspg", "desz", "4shooter2::r",
   "f336w", "gaia::grvs", "f150w", "megacam6::i2", "f300m", "f087", "ps1::r",
   "hsc::i", "uvot::uvm2", "lssty", "swope2::j", "4shooter2::b", "gaia::g",
   "standard::r", "megacam6::g", "f275w", "ztfi", "swope2::b", "cspv3014",
   "standard::u", "uvot::white", "desu", "uvot::b", "atlaso", "f110w",
   "keplercam::b", "f146", "cspys", "f435w", "f115w", "sdssr", "gotol", "tess",
   "keplercam::i", "f460m", "cspv9844", "f1065c", "f1140c", "desy",
   "4shooter2::i", "f444w", "hsc::i2", "skymapperi", "ps1::y", "f200w",
   "standard::i", "kepler", "f1130w", "4shooter2::v", "uvf850lp", "standard::b",
   "f139m", "f062", "megacam6::r", "f158", "ps1::g", "swope2::y", "uvf814w",
   "f1000w", "f475w", "f106", "uvot::v", "f775w", "uvf625w", "gotor", "lsstr",
   "keplercam::r", "gaia::gbp", "uvf475w", "skymapperu", "cspjd", "f410m",
   "bessellv", "bessellux", "uvot::uvw1", "swope2::v", "f277w"]

/-- `df['band'].map(BAND_MAP).fillna(df['band'])` (line 81): mapped
labels are replaced, unmapped labels pass through. -/
def bandMapApply (b : String) : String :=
  match BAND_MAP.find? (fun p => p.1 == b) with
  | some p => p.2
  | none => b

/-- Lines 73-83 of `process_data.py` in the code's order: merge and
deduplicate on (`time`, `mag`), then trim `band`, then drop rows whose
band contains a parenthesis, then map through `BAND_MAP`, then keep only
bands of `KNOWN_BANDS`. -/
def normStage (ts : List (List SRow)) : List SRow :=
  let d := mergeObservations ts
  let d2 := d.map (fun r => { r with band := strTrim r.band })
  let d3 := d2.filter (fun r => !(strContains r.band '('))
  let d4 := d3.map (fun r => { r with band := bandMapApply r.band })
  d4.filter (fun r => decide (r.band ∈ KNOWN_BANDS))

/-- Reading of a `Val` inside a number field `α` (only ever applied
with a finite value in the flux-error formula). -/
def valToA (α : Type) [DivisionRing α] : Val → α
  | .fin q => (q : α)
  | _ => 0

/-- `np.nan_to_num(x, nan=-999.0)`: NaN becomes the sentinel -999,
infinities become ±float64-max (numpy's default). -/
def nanToNum (α : Type) [DivisionRing α] : Val → α
  | .fin q => (q : α)
  | .nan => -999
  | .pinf => (17976931348623157 : α) * (10 : α) ^ (292 : ℕ)
  | .ninf => -((17976931348623157 : α) * (10 : α) ^ (292 : ℕ))

/-- A row of the final SNANA table (`process_data.py` lines 111-116),
parametrised over the number field carrying the flux values.
`magerrRaw` is not a column of the written table; it records the source
magnitude error so that theorems can speak about it. -/
structure FinalRow (α : Type) where
  time : Val
  band : String
  flux : α
  fluxerr : α
  mag : Val
  magerr : α
  zp : α
  zpsys : String
  magerrRaw : Val
deriving DecidableEq, Repr

/-- Lines 104-116 for one observation.  `b2f sys mag band` is
`magsys.band_mag_to_flux(mag, band)`; `lnTen` is `np.log(10)`;
`sys` is the lower-cased magnitude-system name, stored through numpy's
`<U10` dtype (hence truncated to ten characters). -/
def convertRow (α : Type) [DivisionRing α] (b2f : String → Val → String → α)
    (lnTen : α) (sys : String) (r : SRow) : FinalRow α :=
  let flux := b2f sys r.mag r.band
  { time := r.time,
    band := r.band,
    flux := flux,
    fluxerr :=
      if r.magerr.isFinite then flux * (2 / 5 : α) * lnTen * valToA α r.magerr
      else (-999 : α),
    mag := r.mag,
    magerr := nanToNum α r.magerr,
    zp := (25 : α),
    zpsys := strTake sys 10,
    magerrRaw := r.magerr }

/-- The conversion loop plus final-table assembly (lines 104-116). -/
def fluxConvert (α : Type) [DivisionRing α] (b2f : String → Val → String → α)
    (lnTen : α) (sys : String) (rows : List SRow) : List (FinalRow α) :=
  rows.map (convertRow α b2f lnTen sys)

/-- Modelled from the spec: `sncosmo`'s `magsys.band_mag_to_flux` (the
library call at line 106 is outside this repository).  Per §4.4 of the
spec it is the system- and band-specific zero-point flux times
`10^(-0.4 * magnitude)`. -/
noncomputable def band_mag_to_flux (zpF : String → String → ℝ)
    (sys : String) (m : Val) (band : String) : ℝ :=
  zpF sys band * Real.rpow 10 (-(2 / 5 : ℝ) * valToA ℝ m)

/-- One registry entry of `config.py`: declared files and the optional
magnitude-system name. -/
structure SnInfo where
  files : List String
  magSystem : Option String
deriving DecidableEq, Repr

/-- `sn_info.get("mag_system", "Vega")`. -/
def magSysOf (i : SnInfo) : String := i.magSystem.getD "Vega"

/-- The `SUPERNOVAE` registry (`config.py`). -/
def SUPERNOVAE : List (String × SnInfo) :=
  [("SN1939A", ⟨["photometry_source1_data1.fit"], some "Vega"⟩),
   ("SN1957B", ⟨["photometry_source1_data1.fit"], some "Vega"⟩),
   ("SN1960F", ⟨["photometry_source1_data1.fit", "photometry_source2_data1.csv"], some "Vega"⟩),
   ("SN1960R", ⟨["photometry_source1_data1.fit"], some "Vega"⟩),
   ("SN1961H", ⟨["photometry_source1_data1.fit"], some "Vega"⟩),
   ("SN1963I", ⟨["photometry_source1_data1.csv"], some "Vega"⟩),
   ("SN1965I", ⟨["photometry_source1_data1.fit", "photometry_source2_data2.csv"], some "Vega"⟩),
   ("SN1971G", ⟨["photometry_source1_data1.fit", "photometry_source1_data2.csv"], some "Vega"⟩),
   ("SN1980I", ⟨["photometry_source1_data1.txt"], some "Vega"⟩),
   ("SN1981B", ⟨["photometry_source1_data1.fit"], some "Vega"⟩),
   ("SN1983G", ⟨["photometry_source1_data1.fit", "photometry_source1_data2.csv", "photometry_source2_data1.csv"], some "Vega"⟩),
   ("SN1984A", ⟨["photometry_source1_data1.fit", "photometry_source1_data2.csv", "photometry_source2_data1.txt"], some "Vega"⟩),
   ("SN1985B", ⟨["photometry_source1_data1.csv", "photometry_source2_data1.txt"], some "Vega"⟩),
   ("SN1989M", ⟨["photometry_source1_data1.csv", "photometry_source2_data1.csv"], some "Vega"⟩),
   ("SN1990N", ⟨["photometry_source1_data1.txt"], some "Vega"⟩),
   ("SN1991T", ⟨["photometry_source1_data1.txt"], some "Vega"⟩),
   ("SN1991bg", ⟨["photometry_source1_data1.txt"], some "Vega"⟩),
   ("SN1992P", ⟨["photometry_source1_data1.txt"], some "Vega"⟩),
   ("SN1994D", ⟨["photometry_source1_data1.txt"], some "Vega"⟩),
   ("SN1999cl", ⟨["photometry_source1_data1.txt"], some "Vega"⟩)]

/-- Observable milestones of one object's processing, in program order. -/
inductive Ev where
  | fileParsed (name : String)
  | fileUnparsable (name : String)
  | skippedNoData
  | skippedEmpty
  | metadataLookup
  | converted
  | emitted
deriving DecidableEq, Repr

/-- The per-file loop of `process_supernova` (lines 56-67): missing
files are skipped silently, an unparsable file leaves a warning and
processing continues, a parsed file contributes its table. -/
def collectFiles (fc : String → Option RawFile) : List String → List (List SRow) × List Ev
  | [] => ([], [])
  | n :: rest =>
    let r := collectFiles fc rest
    match fc n with
    | none => r
    | some raw =>
      match tryParse ALL_PARSERS raw with
      | some t => (toSRows t :: r.1, Ev.fileParsed n :: r.2)
      | none => (r.1, Ev.fileUnparsable n :: r.2)

/-- `process_supernova` (`process_data.py` lines 50-125) with its
collaborators as parameters: `fc` the on-disk files, `meta` the Simbad
lookup result (`get_sn_metadata` catches every exception internally, so
it is a plain `Option`; only `ra is None` matters downstream),
`magsysLookup` modelling `sncosmo.get_magsystem` and `writeLc` the
output-writing calls — the source wraps neither in `try/except`, so
their errors propagate out of the function. -/
def process_supernova (α : Type) [DivisionRing α]
    (b2f : String → Val → String → α) (lnTen : α)
    (magsysLookup : String → Except Unit Unit)
    (writeLc : String → Except Unit Unit)
    (fc : String → Option RawFile) (meta : Option Unit)
    (name : String) (info : SnInfo) :
    Except Unit (List Ev × Option (List (FinalRow α))) :=
  let c := collectFiles fc info.files
  if c.1.isEmpty then .ok (c.2 ++ [.skippedNoData], none)
  else
    let rows := normStage c.1
    if rows.isEmpty then .ok (c.2 ++ [.skippedEmpty], none)
    else
      let evs := c.2 ++ [Ev.metadataLookup]
      match meta with
      | none => .ok (evs, none)
      | some _ =>
        let sys := strToLower (magSysOf info)
        match magsysLookup sys with
        | .error e => .error e
        | .ok _ =>
          let out := fluxConvert α b2f lnTen sys rows
          let evs := evs ++ [Ev.converted]
          match writeLc name with
          | .error e => .error e
          | .ok _ => .ok (evs ++ [Ev.emitted], some out)

/-- The batch driver (`process_data.py` lines 127-129): a bare `for`
loop over the registry with no exception handling, so an error raised
by one object's processing propagates and ends the run. -/
def runBatch {T : Type} (proc : String → SnInfo → Except Unit (List Ev × T)) :
    List (String × SnInfo) → Except Unit (List Ev)
  | [] => .ok []
  | (n, i) :: rest =>
    match proc n i with
    | .error e => .error e
    | .ok r =>
      match runBatch proc rest with
      | .error e => .error e
      | .ok evs => .ok (r.1 ++ evs)

/-! ## Concrete inputs used by witnesses and counterexamples -/

/-- A text file no parser accepts. -/
def garbageFile : RawFile := .text ["garbage"]

/-- A comma-separated file whose header line carries every token of
`parse_txt`'s fingerprint. -/
def fpCrossFile : RawFile := .text
  ["Julian Date,Gregorian Day,Magnitude,Indmag and Band,Magerr,Band,Ref",
   "2430000,Jan1,12,x,1,B,ref1"]

/-- A two-HDU FITS file with one Johnson-V observation. -/
def fitsDemo : RawFile := .fits
  [⟨[], []⟩,
   ⟨["JD", "m", "band"], [[.num (.fin 100), .num (.fin 12), .str "V"]]⟩]

/-- On-disk contents for the demo runs: the single declared FITS file
of the first registry entries exists, nothing else does. -/
def fcDemo (n : String) : Option RawFile :=
  if n = "photometry_source1_data1.fit" then some fitsDemo else none

/-- A write collaborator that fails on the first registry object only
(an I/O error on its output file). -/
def writeFailDemo (n : String) : Except Unit Unit :=
  if n = "SN1939A" then .error () else .ok ()

/-- External calls that always succeed. -/
def extOk (_ : String) : Except Unit Unit := .ok ()

/-- The per-object processor the batch driver runs for the C7 scenario:
flux values are carried in `ℚ` with a trivial zero-point lookup, the
magnitude-system lookup succeeds and writing the first object's output
fails. -/
def procDemo (n : String) (i : SnInfo) :
    Except Unit (List Ev × Option (List (FinalRow ℚ))) :=
  process_supernova ℚ (fun _ _ _ => 0) 0 extOk writeFailDemo fcDemo (some ()) n i

/-- Sanitizer input whose single row has an infinite time. -/
def tblInf : Table := ⟨["time", "mag"], [[.num .pinf, .num (.fin 12)]]⟩

/-- Sanitizer input with one good row and one NaN-time row. -/
def tblGoodBad : Table :=
  ⟨["time", "mag"], [[.num (.fin 1), .num (.fin 2)], [.num .nan, .num (.fin 3)]]⟩

/-- Merged-stage input: the first file carries a colour-index label for
the pair (0, 1), the second file the plain `B` passband for the same
pair. -/
def parenFirstTables : List (List SRow) :=
  [[⟨.fin 0, .fin 1, .nan, "(B-V)", "a"⟩], [⟨.fin 0, .fin 1, .nan, "B", "b"⟩]]

/-- Two files sharing the pair (5, 6); the first file's row must be the
unique representative. -/
def tsW : List (List SRow) :=
  [[⟨.fin 5, .fin 6, .nan, "B", "x"⟩], [⟨.fin 5, .fin 6, .fin 1, "V", "y"⟩]]

/-- One file whose label needs trimming; the output row must descend
from it with trimmed, mapped band. -/
def ts4w : List (List SRow) := [[⟨.fin 0, .fin 1, .nan, " B ", "x"⟩]]

def r4 : SRow := ⟨.fin 0, .fin 1, .nan, "bessellb", "x"⟩

/-- On-disk contents with one unparsable file plus the demo FITS file. -/
def fcMix (n : String) : Option RawFile :=
  if n = "bad.txt" then some garbageFile
  else if n = "photometry_source1_data1.fit" then some fitsDemo else none

/-- The demo per-object processor with all collaborators succeeding. -/
def procOk (n : String) (i : SnInfo) :
    Except Unit (List Ev × Option (List (FinalRow ℚ))) :=
  process_supernova ℚ (fun _ _ _ => 0) 0 extOk extOk fcDemo (some ()) n i

/-- The event trace of one object's processing (empty on an aborted
run). -/
def trOf {T : Type} : Except Unit (List Ev × T) → List Ev
  | .ok r => r.1
  | .error _ => []

def isOkB {ε α : Type} : Except ε α → Bool
  | .ok _ => true
  | .error _ => false

instance {ε α : Type} [DecidableEq ε] [DecidableEq α] :
    DecidableEq (Except ε α) := fun a b =>
  match a, b with
  | .error e1, .error e2 =>
    if h : e1 = e2 then .isTrue (congrArg Except.error h)
    else .isFalse (fun hh => h (Except.error.inj hh))
  | .ok a1, .ok a2 =>
    if h : a1 = a2 then .isTrue (congrArg Except.ok h)
    else .isFalse (fun hh => h (Except.ok.inj hh))
  | .error _, .ok _ => .isFalse (fun hh => Except.noConfusion hh)
  | .ok _, .error _ => .isFalse (fun hh => Except.noConfusion hh)

def infoDemo : SnInfo := ⟨["photometry_source1_data1.fit"], some "Vega"⟩

/-- The event trace of a fully successful demo run. -/
def tr8 : List Ev :=
  [Ev.fileParsed "photometry_source1_data1.fit", Ev.metadataLookup,
   Ev.converted, Ev.emitted]

/-- The single output row of the demo run over `ℚ` with a zero
`band_mag_to_flux`. -/
def fr9 : FinalRow ℚ :=
  { time := .fin 100, band := "bessellv", flux := 0, fluxerr := -999,
    mag := .fin 12, magerr := -999, zp := 25, zpsys := "vega",
    magerrRaw := .nan }

/-- The sanitized output of `tblGoodBad` and its single row. -/
def rowGB : List Cell :=
  [.num (.fin 1), .num (.fin 2), .num .nan, .str "UNKNOWN", .str "N/A"]

def outGB : Table := ⟨fiveCols, [rowGB]⟩

/-- The sanitized output of the demo FITS parse and its single row. -/
def rowFD : List Cell :=
  [.num (.fin 100), .num (.fin 12), .num .nan, .str "V", .str "N/A"]

def outFD : Table := ⟨fiveCols, [rowFD]⟩

/-- A trivial zero-point table for flux-formula witnesses. -/
def zpOne : String → String → ℝ := fun _ _ => 1

def s5 : SRow := ⟨.fin 12, .fin 13, .fin (1 / 10), "B", "x"⟩

noncomputable def r5 : FinalRow ℝ :=
  convertRow ℝ (band_mag_to_flux zpOne) (Real.log 10) "vega" s5

/-! ## Helper lemmas -/

theorem getD_set_self {β : Type} (l : List β) (i : Nat) (a d : β)
    (h : i < l.length) : (l.set i a).getD i d = a := by
  induction l generalizing i with
  | nil => simp at h
  | cons x xs ih =>
    cases i with
    | zero => rfl
    | succ n =>
      have : n < xs.length := by simpa using h
      simpa [List.getD] using ih n this

theorem getD_set_ne {β : Type} (l : List β) (i j : Nat) (a d : β)
    (h : i ≠ j) : (l.set j a).getD i d = l.getD i d := by
  induction l generalizing i j with
  | nil => rfl
  | cons x xs ih =>
    cases j with
    | zero =>
      cases i with
      | zero => exact absurd rfl h
      | succ n => rfl
    | succ m =>
      cases i with
      | zero => rfl
      | succ n =>
        have : n ≠ m := fun e => h (by simp [e])
        simpa [List.getD] using ih n m this

theorem getD_append_left {β : Type} (l l' : List β) (i : Nat) (d : β)
    (h : i < l.length) : (l ++ l').getD i d = l.getD i d := by
  induction l generalizing i with
  | nil => simp at h
  | cons x xs ih =>
    cases i with
    | zero => rfl
    | succ n =>
      have : n < xs.length := by simpa using h
      simpa [List.getD] using ih n this

theorem getD_ge_length {β : Type} (l : List β) (i : Nat) (d : β)
    (h : l.length ≤ i) : l.getD i d = d := by
  induction l generalizing i with
  | nil => cases i <;> rfl
  | cons x xs ih =>
    cases i with
    | zero => simp at h
    | succ n =>
      have : xs.length ≤ n := by simpa using h
      simpa [List.getD] using ih n this

theorem colIdx_lt (h : List String) (n : String) (i : Nat)
    (hc : colIdx h n = some i) : i < h.length := by
  induction h generalizing i with
  | nil => simp [colIdx] at hc
  | cons c cs ih =>
    by_cases e : c = n
    · rw [colIdx, if_pos e] at hc
      injection hc with hh
      subst hh
      simp
    · simp only [colIdx, if_neg e, Option.map_eq_some'] at hc
      obtain ⟨j, hj, rfl⟩ := hc
      have := ih j hj
      simp only [List.length_cons]
      omega

theorem colIdx_isSome_iff (h : List String) (n : String) :
    (colIdx h n).isSome = true ↔ n ∈ h := by
  induction h with
  | nil => simp [colIdx]
  | cons c cs ih =>
    by_cases e : c = n
    · simp [colIdx, e]
    · simp only [colIdx, if_neg e, List.mem_cons]
      constructor
      · intro hs
        right
        rcases ho : colIdx cs n with _ | j
        · rw [ho] at hs; simp at hs
        · exact ih.mp (by simp [ho])
      · intro hm
        rcases hm with hm | hm
        · exact absurd hm.symm e
        · rcases ho : colIdx cs n with _ | j
          · have := ih.mpr hm; rw [ho] at this; simp at this
          · simp [ho]

theorem colIdx_getD (h : List String) (n : String) (i : Nat)
    (hc : colIdx h n = some i) : h.getD i "" = n := by
  induction h generalizing i with
  | nil => simp [colIdx] at hc
  | cons c cs ih =>
    by_cases e : c = n
    · simp [colIdx, e] at hc
      subst hc
      simpa using e
    · simp only [colIdx, if_neg e, Option.map_eq_some'] at hc
      obtain ⟨j, hj, rfl⟩ := hc
      simpa [List.getD] using ih j hj

theorem colIdx_append_left (h h2 : List String) (n : String) (i : Nat)
    (hc : colIdx h n = some i) : colIdx (h ++ h2) n = some i := by
  induction h generalizing i with
  | nil => simp [colIdx] at hc
  | cons c cs ih =>
    by_cases e : c = n
    · simp [colIdx, e] at hc ⊢; omega
    · simp only [colIdx, if_neg e, Option.map_eq_some'] at hc
      obtain ⟨j, hj, rfl⟩ := hc
      have ihj := ih j hj
      simp only [List.cons_append, colIdx, if_neg e, List.append_eq, ihj,
        Option.map_some']

theorem getD_append_singleton {β : Type} (l : List β) (x d : β) :
    (l ++ [x]).getD l.length d = x := by
  induction l with
  | nil => rfl
  | cons y ys ih => simp only [List.cons_append, List.length_cons, List.getD]; exact ih

/-! ### Sanitizer stage lemmas -/

theorem cellVal_append_str (row : List Cell) (s : String) (i : Nat) :
    cellVal ((row ++ [Cell.str s]).getD i (Cell.num .nan)) =
      cellVal (row.getD i (Cell.num .nan)) := by
  by_cases h : i < row.length
  · rw [getD_append_left _ _ _ _ h]
  · push_neg at h
    rw [getD_ge_length row i _ h]
    rcases Nat.lt_or_ge i (row.length + 1) with h2 | h2
    · have he : i = row.length := by omega
      subst he
      rw [getD_append_singleton]
      rfl
    · have : (row ++ [Cell.str s]).length ≤ i := by
        simp only [List.length_append, List.length_cons, List.length_nil]
        omega
      rw [getD_ge_length _ _ _ this]

theorem colIdx_mem_exists (h : List String) (n : String) (hn : n ∈ h) :
    ∃ i, colIdx h n = some i := by
  have := (colIdx_isSome_iff h n).mpr hn
  rcases he : colIdx h n with _ | i
  · rw [he] at this; simp at this
  · exact ⟨i, rfl⟩

theorem colIdx_ne (h : List String) (n m : String) (i j : Nat)
    (hi : colIdx h n = some i) (hj : colIdx h m = some j) (hnm : n ≠ m) :
    i ≠ j := by
  intro e
  subst e
  exact hnm ((colIdx_getD h n i hi).symm.trans (colIdx_getD h m i hj))

theorem addCol_header_mem (t : Table) (m : String) (c : Cell) (n : String)
    (hn : n ∈ t.header) : n ∈ (addColIfMissing t m c).header := by
  unfold addColIfMissing
  split
  · exact hn
  · exact List.mem_append_left _ hn

theorem addCol_length (t : Table) (m : String) (c : Cell) :
    (addColIfMissing t m c).rows.length = t.rows.length := by
  unfold addColIfMissing
  split <;> simp

theorem astype_header (t : Table) (m : String) :
    (astypeStrCol t m).header = t.header := by
  unfold astypeStrCol
  rcases colIdx t.header m with _ | i <;> rfl

theorem astype_length (t : Table) (m : String) :
    (astypeStrCol t m).rows.length = t.rows.length := by
  unfold astypeStrCol
  rcases colIdx t.header m with _ | i <;> simp

theorem fillStage_length (t : Table) :
    (fillStage t).rows.length = t.rows.length := by
  unfold fillStage
  rw [astype_length, addCol_length, addCol_length]

theorem filterStage_length (t : Table) :
    (filterStage t).rows.length = t.rows.countP (rowGood t.header) := by
  simp [filterStage, List.countP_eq_length_filter]

/-- Appending a constant *string* column never changes any numeric
column reading: either the read index is inside the old row, or both
reads give NaN. -/
theorem addCol_val (t : Table) (m : String) (s : String) (ns : List String)
    (hns : ∀ n ∈ ns, n ∈ t.header) (row' : List Cell)
    (h : row' ∈ (addColIfMissing t m (.str s)).rows) :
    ∃ row ∈ t.rows, ∀ n ∈ ns,
      valAtH (addColIfMissing t m (.str s)).header row' n =
        valAtH t.header row n := by
  unfold addColIfMissing at h ⊢
  split at h
  · next hm => exact ⟨row', h, fun n _ => by rw [if_pos hm]⟩
  · next hm =>
    rcases List.mem_map.mp h with ⟨row, hrow, rfl⟩
    refine ⟨row, hrow, fun n hn => ?_⟩
    rw [if_neg hm]
    obtain ⟨i, hi⟩ := colIdx_mem_exists t.header n (hns n hn)
    have hi2 := colIdx_append_left t.header [m] n i hi
    simp only [valAtH, cellAtH, hi, hi2]
    exact cellVal_append_str row s i

theorem astype_val (t : Table) (m : String) (ns : List String)
    (hnm : ∀ n ∈ ns, n ≠ m) (hns : ∀ n ∈ ns, n ∈ t.header)
    (row' : List Cell) (h : row' ∈ (astypeStrCol t m).rows) :
    ∃ row ∈ t.rows, ∀ n ∈ ns,
      valAtH (astypeStrCol t m).header row' n = valAtH t.header row n := by
  rcases hj : colIdx t.header m with _ | j
  · have he : astypeStrCol t m = t := by unfold astypeStrCol; rw [hj]
    rw [he] at h ⊢
    exact ⟨row', h, fun n _ => rfl⟩
  · have he : astypeStrCol t m =
        { t with
          rows :=
            t.rows.map (fun row =>
              row.set j (Cell.str (cellRender (row.getD j (Cell.num .nan))))) } := by
      unfold astypeStrCol; rw [hj]
    rw [he] at h ⊢
    rcases List.mem_map.mp h with ⟨row, hrow, rfl⟩
    refine ⟨row, hrow, fun n hn => ?_⟩
    obtain ⟨i, hi⟩ := colIdx_mem_exists t.header n (hns n hn)
    simp only [valAtH, cellAtH, hi]
    rw [getD_set_ne row i j _ _ (colIdx_ne t.header n m i j hi hj (hnm n hn))]

/-- Projection to the five canonical columns reads `time` and `mag`
straight through. -/
theorem proj_val_time (h : List String) (row : List Cell) :
    valAtH fiveCols (fiveCols.map (cellAtH h row)) "time" =
      valAtH h row "time" := rfl

theorem proj_val_mag (h : List String) (row : List Cell) :
    valAtH fiveCols (fiveCols.map (cellAtH h row)) "mag" =
      valAtH h row "mag" := rfl

/-- Rows of `sanInner t` keep their (NaN-free) `time`/`mag` readings
from a good row of `t`. -/
theorem sanInner_val (t : Table) (htime : "time" ∈ t.header)
    (hmag : "mag" ∈ t.header) (row' : List Cell)
    (h : row' ∈ (sanInner t).rows) :
    ∃ row ∈ t.rows, rowGood t.header row = true ∧
      valAtH (sanInner t).header row' "time" = valAtH t.header row "time" ∧
      valAtH (sanInner t).header row' "mag" = valAtH t.header row "mag" := by
  have hf : (filterStage t).header = t.header := rfl
  have h1 : ∀ n ∈ ["time", "mag"], n ∈ (filterStage t).header := by
    intro n hn
    simp only [List.mem_cons, List.not_mem_nil, or_false] at hn
    rw [hf]
    rcases hn with rfl | rfl
    · exact htime
    · exact hmag
  have h2 : ∀ n ∈ ["time", "mag"],
      n ∈ (addColIfMissing (filterStage t) "band" (.str "UNKNOWN")).header :=
    fun n hn => addCol_header_mem _ _ _ _ (h1 n hn)
  have h3 : ∀ n ∈ ["time", "mag"],
      n ∈ (addColIfMissing (addColIfMissing (filterStage t) "band"
        (.str "UNKNOWN")) "reference" (.str "N/A")).header :=
    fun n hn => addCol_header_mem _ _ _ _ (h2 n hn)
  unfold sanInner fillStage at h ⊢
  obtain ⟨r2, hr2, hv2⟩ := astype_val _ "band" ["time", "mag"]
    (by
      intro n hn
      simp only [List.mem_cons, List.not_mem_nil, or_false] at hn
      rcases hn with rfl | rfl <;> decide) h3 row' h
  obtain ⟨r3, hr3, hv3⟩ := addCol_val _ "reference" "N/A" ["time", "mag"] h2 r2 hr2
  obtain ⟨r4, hr4, hv4⟩ := addCol_val _ "band" "UNKNOWN" ["time", "mag"] h1 r3 hr3
  rcases List.mem_filter.mp hr4 with ⟨hr5, hgood⟩
  refine ⟨r4, hr5, hgood, ?_, ?_⟩
  · rw [hv2 "time" (by simp), hv3 "time" (by simp), hv4 "time" (by simp)]
    rfl
  · rw [hv2 "mag" (by simp), hv3 "mag" (by simp), hv4 "mag" (by simp)]
    rfl

/-! ### Rectangularity through the sanitizer stages -/

theorem foldl_rename_length (cmap : List (String × String)) (h : List String) :
    (cmap.foldl
      (fun h p =>
        if p.2 ∈ h then h.map (fun c => if c = p.2 then p.1 else c) else h)
      h).length = h.length := by
  induction cmap generalizing h with
  | nil => rfl
  | cons p ps ih =>
    rw [List.foldl_cons, ih]
    split <;> simp

theorem rename_header_length (cmap : List (String × String)) (t : Table) :
    (renameStage cmap t).header.length = t.header.length :=
  foldl_rename_length cmap t.header

theorem rect_rename (cmap : List (String × String)) (t : Table) (h : t.rect) :
    (renameStage cmap t).rect := by
  intro row hrow
  rw [rename_header_length]
  exact h row hrow

theorem rect_coerceCol (t : Table) (n : String) (h : t.rect) :
    (coerceCol t n).rect := by
  rcases hi : colIdx t.header n with _ | i
  · by_cases hm : n = "magerr"
    · have he : coerceCol t n =
          { header := t.header ++ ["magerr"],
            rows := t.rows.map (· ++ [Cell.num .nan]) } := by
        unfold coerceCol; rw [hi, if_pos hm]
      rw [he]
      intro row hrow
      rcases List.mem_map.mp hrow with ⟨row0, hrow0, rfl⟩
      simp [h row0 hrow0]
    · have he : coerceCol t n = t := by unfold coerceCol; rw [hi, if_neg hm]
      rw [he]; exact h
  · have he : coerceCol t n =
        { t with
          rows :=
            t.rows.map (fun row =>
              row.set i (Cell.num (cellToNumeric (row.getD i (Cell.num .nan))))) } := by
      unfold coerceCol; rw [hi]
    rw [he]
    intro row hrow
    rcases List.mem_map.mp hrow with ⟨row0, hrow0, rfl⟩
    simp [h row0 hrow0]

theorem rect_coerceStage (t : Table) (h : t.rect) : (coerceStage t).rect :=
  rect_coerceCol _ _ (rect_coerceCol _ _ (rect_coerceCol _ _ h))

theorem rect_sanPre (cmap : List (String × String)) (t : Table) (h : t.rect) :
    (sanPre cmap t).rect :=
  rect_coerceStage _ (rect_rename cmap t h)

theorem rect_filter (t : Table) (h : t.rect) : (filterStage t).rect :=
  fun row hrow => h row (List.mem_of_mem_filter hrow)

theorem rect_addCol (t : Table) (m : String) (c : Cell) (h : t.rect) :
    (addColIfMissing t m c).rect := by
  unfold addColIfMissing
  split
  · exact h
  · intro row hrow
    simp only [List.mem_map] at hrow
    rcases hrow with ⟨row0, hrow0, rfl⟩
    simp [h row0 hrow0]

theorem addCol_self_mem (t : Table) (m : String) (c : Cell) :
    m ∈ (addColIfMissing t m c).header := by
  unfold addColIfMissing
  split
  · assumption
  · exact List.mem_append_right _ (List.mem_singleton.mpr rfl)

/-- After `astype(str)` on an existing column of a rectangular table,
every cell of that column is a string. -/
theorem astype_band_str (t : Table) (hm : "band" ∈ t.header) (hr : t.rect) :
    ∀ row' ∈ (astypeStrCol t "band").rows,
      ∃ s, cellAtH (astypeStrCol t "band").header row' "band" = Cell.str s := by
  intro row' h
  obtain ⟨j, hj⟩ := colIdx_mem_exists t.header "band" hm
  have he : astypeStrCol t "band" =
      { t with
        rows :=
          t.rows.map (fun row =>
            row.set j (Cell.str (cellRender (row.getD j (Cell.num .nan))))) } := by
    unfold astypeStrCol; rw [hj]
  rw [he] at h ⊢
  rcases List.mem_map.mp h with ⟨row, hrow, rfl⟩
  refine ⟨cellRender (row.getD j (Cell.num .nan)), ?_⟩
  simp only [cellAtH, hj]
  exact getD_set_self row j _ _ ((hr row hrow).symm ▸ colIdx_lt t.header "band" j hj)

/-- Every row of `sanInner t` has a string in its band column, provided
`t` is rectangular. -/
theorem sanInner_band_str (t : Table) (hr : t.rect) :
    ∀ row' ∈ (sanInner t).rows,
      ∃ s, cellAtH (sanInner t).header row' "band" = Cell.str s := by
  unfold sanInner fillStage
  exact astype_band_str _
    (addCol_header_mem _ _ _ _ (addCol_self_mem _ _ _))
    (rect_addCol _ _ _ (rect_addCol _ _ _ (rect_filter _ hr)))

theorem proj_cell_band (h : List String) (row : List Cell) :
    cellAtH fiveCols (fiveCols.map (cellAtH h row)) "band" =
      cellAtH h row "band" := rfl

/-! ### Rectangularity of parser outputs -/

theorem rect_projectRequire (t : Table) (ns : List String) (t' : Table)
    (h : projectRequire t ns = some t') : t'.rect := by
  unfold projectRequire at h
  split at h
  · injection h with he
    subst he
    intro row hrow
    rcases List.mem_map.mp hrow with ⟨row0, _, rfl⟩
    simp
  · cases h

theorem rect_readDelim (sep : Char) (lines : List String) (t : Table)
    (h : readDelim sep lines = some t) : t.rect := by
  unfold readDelim at h
  match lines with
  | [] => cases h
  | h0 :: rest =>
    dsimp only at h
    split at h
    · cases h
    · next hany =>
      injection h with he
      subst he
      intro row hrow
      rcases List.mem_map.mp hrow with ⟨raw, hraw, rfl⟩
      have hle : raw.length ≤ (splitCh sep h0).length := by
        have h2 := List.any_eq_false.mp (Bool.not_eq_true _ ▸ hany) raw hraw
        simp only [decide_eq_true_eq, Nat.not_lt] at h2
        omega
      unfold padCells
      simp only [List.length_append, List.length_replicate, List.length_map]
      simp only [List.length_map] at hle
      omega

theorem prepCsv_rect (f : RawFile) (x : Table × List (String × String))
    (h : prepCsv f = some x) : x.1.rect := by
  cases f with
  | fits hdus => simp [prepCsv] at h
  | text lines =>
    simp only [prepCsv, Option.bind_eq_some, Option.map_eq_some'] at h
    obtain ⟨t0, _, t2, _, t3, _, t4, _, t5, _, t6, h6, hx⟩ := h
    rw [← hx]
    exact rect_projectRequire t5 fiveCols t6 h6

theorem prepTxt_rect (f : RawFile) (x : Table × List (String × String))
    (h : prepTxt f = some x) : x.1.rect := by
  cases f with
  | fits hdus => simp [prepTxt] at h
  | text lines =>
    simp only [prepTxt] at h
    split at h
    · simp only [Option.map_eq_some'] at h
      obtain ⟨t0, h0, hx⟩ := h
      rw [← hx]
      exact rect_rename _ _ (rect_readDelim _ _ _ h0)
    · cases h

theorem prepNotes_rect (f : RawFile) (x : Table × List (String × String))
    (h : prepNotes f = some x) : x.1.rect := by
  cases f with
  | fits hdus => simp [prepNotes] at h
  | text raw =>
    simp only [prepNotes] at h
    split at h
    · cases h
    · split at h
      · cases h
      · split at h
        · simp only [Option.bind_eq_some, Option.map_eq_some'] at h
          obtain ⟨ta, _, tb, _, tc, _, td, hd, hx⟩ := h
          rw [← hx]
          exact rect_projectRequire tc fiveCols td hd
        · cases h

theorem prepFit_rect (f : RawFile) (x : Table × List (String × String))
    (hf : f.rect) (h : prepFit f = some x) : x.1.rect := by
  cases f with
  | text lines => simp [prepFit] at h
  | fits hdus =>
    match hdus, hf, h with
    | [], hf, h => simp [prepFit] at h
    | [a], hf, h => simp [prepFit] at h
    | a :: dat :: rest, hf, h =>
      unfold prepFit at h
      dsimp only at h
      split at h
      · injection h with he
        subst he
        intro row hrow
        exact hf dat (List.mem_cons_of_mem _ (List.mem_cons_self _ _)) row
          (List.mem_of_mem_filter hrow)
      · cases h

/-! ### Deduplication lemmas (lines 73-74) -/

theorem dedupAux_mem (l : List SRow) (seen : List (Val × Val)) (r : SRow)
    (hr : r ∈ dedupAux l seen) : r ∈ l := by
  induction l generalizing seen with
  | nil => simp [dedupAux] at hr
  | cons x xs ih =>
    rw [dedupAux] at hr
    split at hr
    · exact List.mem_cons_of_mem x (ih _ hr)
    · rcases List.mem_cons.mp hr with h | h
      · simp [h]
      · exact List.mem_cons_of_mem x (ih _ h)

theorem dedupAux_not_seen (l : List SRow) (seen : List (Val × Val)) (r : SRow)
    (hr : r ∈ dedupAux l seen) : obsKey r ∉ seen := by
  induction l generalizing seen with
  | nil => simp [dedupAux] at hr
  | cons x xs ih =>
    rw [dedupAux] at hr
    split at hr
    · exact ih _ hr
    · rcases List.mem_cons.mp hr with h | h
      · subst h; assumption
      · have := ih _ h
        exact fun hm => this (List.mem_cons_of_mem _ hm)

theorem dedupAux_pairwise (l : List SRow) (seen : List (Val × Val)) :
    (dedupAux l seen).Pairwise (fun a b => obsKey a ≠ obsKey b) := by
  induction l generalizing seen with
  | nil => simp [dedupAux]
  | cons x xs ih =>
    rw [dedupAux]
    split
    · exact ih _
    · refine List.Pairwise.cons (fun b hb => ?_) (ih _)
      have := dedupAux_not_seen _ _ b hb
      exact fun e => this (e ▸ List.mem_cons_self _ _)

theorem dedupAux_countP_zero (l : List SRow) (seen : List (Val × Val))
    (k : Val × Val) (hk : k ∈ seen) :
    (dedupAux l seen).countP (fun y => obsKey y == k) = 0 := by
  rw [List.countP_eq_zero]
  intro a ha
  have := dedupAux_not_seen _ _ a ha
  simp only [beq_iff_eq]
  exact fun e => this (e ▸ hk)

theorem dedupAux_countP_one (l : List SRow) (seen : List (Val × Val)) (r : SRow)
    (hr : r ∈ l) (hs : obsKey r ∉ seen) :
    (dedupAux l seen).countP (fun y => obsKey y == obsKey r) = 1 := by
  induction l generalizing seen with
  | nil => simp at hr
  | cons x xs ih =>
    rw [dedupAux]
    by_cases e : obsKey x = obsKey r
    · rw [if_neg (by rw [e]; exact hs)]
      rw [List.countP_cons_of_pos _ _ (by simpa using e)]
      have hzero := dedupAux_countP_zero xs (obsKey x :: seen) (obsKey r)
        (by rw [← e]; exact List.mem_cons_self _ _)
      omega
    · rcases List.mem_cons.mp hr with h | h
      · exact absurd (congrArg obsKey h.symm) e
      · split
        · exact ih _ h hs
        · rw [List.countP_cons_of_neg _ _ (by simpa using e)]
          refine ih _ h ?_
          intro hm
          rcases List.mem_cons.mp hm with hm | hm
          · exact e hm.symm
          · exact hs hm

theorem dedupAux_find? (l : List SRow) (seen : List (Val × Val)) (r : SRow)
    (hr : r ∈ dedupAux l seen) :
    l.find? (fun y => obsKey y == obsKey r) = some r := by
  induction l generalizing seen with
  | nil => simp [dedupAux] at hr
  | cons x xs ih =>
    rw [dedupAux] at hr
    split at hr
    · next hx =>
      have hne : obsKey x ≠ obsKey r := by
        have := dedupAux_not_seen _ _ r hr
        exact fun e => this (e ▸ hx)
      rw [List.find?_cons_of_neg _ (by simpa using hne)]
      exact ih _ hr
    · next hx =>
      rcases List.mem_cons.mp hr with h | h
      · subst h
        exact List.find?_cons_of_pos _ (by simp)
      · have hne : obsKey x ≠ obsKey r := by
          have := dedupAux_not_seen _ _ r h
          exact fun e => this (e ▸ List.mem_cons_self _ _)
        rw [List.find?_cons_of_neg _ (by simpa using hne)]
        exact ih _ h

theorem dedupTM_countP (l : List SRow) (r : SRow) (hr : r ∈ l) :
    (dedupTM l).countP (fun y => obsKey y == obsKey r) = 1 :=
  dedupAux_countP_one l [] r hr (by simp)

theorem dedupTM_find? (l : List SRow) (r : SRow) (hr : r ∈ dedupTM l) :
    l.find? (fun y => obsKey y == obsKey r) = some r :=
  dedupAux_find? l [] r hr

theorem dedupTM_pairwise (l : List SRow) :
    (dedupTM l).Pairwise (fun a b => obsKey a ≠ obsKey b) :=
  dedupAux_pairwise l []

/-! ### Chain and trace lemmas -/

theorem tryParse_none_of_all (ps : List (RawFile → Option Table)) (f : RawFile)
    (h : ps.all (fun p => (p f).isNone) = true) : tryParse ps f = none := by
  induction ps with
  | nil => rfl
  | cons p rest ih =>
    rw [List.all_cons, Bool.and_eq_true] at h
    rw [tryParse]
    rw [Option.isNone_iff_eq_none.mp h.1]
    exact ih h.2

theorem collectFiles_append_unparsable (fc : String → Option RawFile)
    (name : String) (f : RawFile) (hfc : fc name = some f)
    (hnp : tryParse ALL_PARSERS f = none) (xs ys : List String) :
    collectFiles fc (xs ++ name :: ys) =
      ((collectFiles fc xs).1 ++ (collectFiles fc ys).1,
       (collectFiles fc xs).2 ++ Ev.fileUnparsable name ::
         (collectFiles fc ys).2) := by
  induction xs with
  | nil =>
    simp only [List.nil_append, collectFiles]
    rw [hfc]
    dsimp only
    rw [hnp]
  | cons x xs ih =>
    simp only [List.cons_append, collectFiles, List.append_eq]
    rw [ih]
    rcases hfx : fc x with _ | raw
    · rfl
    · dsimp only
      rcases htp : tryParse ALL_PARSERS raw with _ | t <;> simp

theorem collectFiles_evs (fc : String → Option RawFile) (files : List String) :
    ∀ e ∈ (collectFiles fc files).2,
      (e == Ev.metadataLookup) = false ∧ (e == Ev.converted) = false := by
  induction files with
  | nil => simp [collectFiles]
  | cons n rest ih =>
    intro e he
    rw [collectFiles] at he
    rcases hfx : fc n with _ | raw
    · rw [hfx] at he
      exact ih e he
    · rw [hfx] at he
      dsimp only at he
      rcases htp : tryParse ALL_PARSERS raw with _ | t
      · rw [htp] at he
        rcases List.mem_cons.mp he with rfl | h
        · exact ⟨rfl, rfl⟩
        · exact ih e h
      · rw [htp] at he
        rcases List.mem_cons.mp he with rfl | h
        · exact ⟨rfl, rfl⟩
        · exact ih e h

theorem findIdx_append_of_false {β : Type} (p : β → Bool) (l1 l2 : List β)
    (h : ∀ x ∈ l1, p x = false) :
    (l1 ++ l2).findIdx p = l1.length + l2.findIdx p := by
  induction l1 with
  | nil => simp
  | cons x xs ih =>
    rw [List.cons_append, List.findIdx_cons, h x (List.mem_cons_self _ _)]
    simp only [cond_false]
    rw [ih (fun y hy => h y (List.mem_cons_of_mem _ hy))]
    simp [List.length_cons]
    omega

/-! ## Claims -/

/-- C1: merging the per-file validated tables (concatenation in
file-declaration order followed by the (`time`, `mag`) deduplication of
line 74) yields a set that (a) contains exactly one row for each
(time, magnitude) pair occurring in any input table, (b) represents each
such pair by its first-encountered occurrence — the very row, with all
its other fields (`magerr`, `band`, `reference`) — and (c) contains no
two rows sharing a (time, magnitude) pair. -/
theorem c1_merge_dedup_first_wins (ts : List (List SRow)) :
    (∀ r ∈ ts.flatten,
      (mergeObservations ts).countP (fun y => obsKey y == obsKey r) = 1) ∧
    (∀ r ∈ mergeObservations ts,
      ts.flatten.find? (fun y => obsKey y == obsKey r) = some r) ∧
    (mergeObservations ts).Pairwise (fun a b => obsKey a ≠ obsKey b) :=
  ⟨fun r hr => dedupTM_countP ts.flatten r hr,
   fun r hr => dedupTM_find? ts.flatten r hr,
   dedupTM_pairwise ts.flatten⟩

theorem c1_witness :
    (mergeObservations tsW).countP
        (fun y => obsKey y == obsKey ⟨.fin 5, .fin 6, .nan, "B", "x"⟩) = 1 ∧
    tsW.flatten.find?
        (fun y => obsKey y == obsKey ⟨.fin 5, .fin 6, .nan, "B", "x"⟩) =
      some ⟨.fin 5, .fin 6, .nan, "B", "x"⟩ :=
  ⟨(c1_merge_dedup_first_wins tsW).1 _ (by decide),
   (c1_merge_dedup_first_wins tsW).2.1 _ (by decide)⟩

/-- C4 fails on the code: lines 73-83 deduplicate on (`time`, `mag`)
*before* trimming labels and dropping parenthesized ones.  Here the pair
(0, 1) occurs first with the colour-index label `(B-V)` and later with
the plain passband `B`; dedup keeps the parenthesized row, the paren
filter then removes it, and the pair disappears from the output instead
of being represented by its non-parenthesized occurrence. -/
theorem c4_counterexample :
    normStage parenFirstTables = [] ∧
    (⟨.fin 0, .fin 1, .nan, "B", "b"⟩ : SRow) ∈ parenFirstTables.flatten ∧
    (normStage parenFirstTables).countP
      (fun r => obsKey r == (.fin 0, .fin 1)) = 0 := by
  decide

/-- C4 amended: trimming and parenthesis-dropping run *after* the
(`time`, `mag`) deduplication, so every row of the normalized output
descends from the *first* occurrence of its (time, magnitude) pair in
file-declaration order: that first occurrence has a trimmed label with
no parenthesis, and the output row is exactly that row with its label
trimmed and alias-mapped (and lying in the closed vocabulary).  In
particular, a pair whose earliest occurrence carries a parenthesized
label is not represented in the output at all. -/
theorem c4_amended (ts : List (List SRow)) (r : SRow)
    (hr : r ∈ normStage ts) :
    ∃ u, ts.flatten.find? (fun y => obsKey y == obsKey r) = some u ∧
      strContains (strTrim u.band) '(' = false ∧
      r = { u with band := bandMapApply (strTrim u.band) } ∧
      r.band ∈ KNOWN_BANDS := by
  unfold normStage at hr
  rcases List.mem_filter.mp hr with ⟨hr4, hknown⟩
  rcases List.mem_map.mp hr4 with ⟨s, hs3, rfl⟩
  rcases List.mem_filter.mp hs3 with ⟨hs2, hparen⟩
  rcases List.mem_map.mp hs2 with ⟨u, hu, rfl⟩
  refine ⟨u, dedupTM_find? ts.flatten u hu, ?_, rfl, of_decide_eq_true hknown⟩
  simpa using hparen

theorem c4_witness :
    ∃ u, ts4w.flatten.find? (fun y => obsKey y == obsKey r4) = some u ∧
      strContains (strTrim u.band) '(' = false ∧
      r4 = { u with band := bandMapApply (strTrim u.band) } ∧
      r4.band ∈ KNOWN_BANDS :=
  c4_amended ts4w r4 (by decide)

/-- C2 fails on the code: the row filter of `_sanitize_and_standardize`
(line 22) uses `np.isnan`, so a row whose time is *infinite* — not
missing, but non-finite — survives and is emitted, violating the
claimed finiteness invariant. -/
theorem c2_counterexample :
    sanitize_and_standardize tblInf [] =
      some ⟨fiveCols,
        [[.num .pinf, .num (.fin 12), .num .nan, .str "UNKNOWN", .str "N/A"]]⟩ ∧
    Val.isFinite .pinf = false := by decide

/-- C2 amended: the sanitizer drops exactly the rows whose coerced time
or magnitude is NaN (missing or unparsable) — infinities survive.  It
returns `None` exactly when no row survives this filter (a missing
`time`/`mag` column being the degenerate case in which every row counts
as missing), and every row it emits has non-NaN time and magnitude. -/
theorem c2_amended (t : Table) (cmap : List (String × String)) :
    (∀ out, sanitize_and_standardize t cmap = some out →
      out.rows ≠ [] ∧
      out.rows.length =
        (sanPre cmap t).rows.countP (rowGood (sanPre cmap t).header) ∧
      ∀ row ∈ out.rows,
        (valAtH out.header row "time").isNan = false ∧
        (valAtH out.header row "mag").isNan = false) ∧
    (sanitize_and_standardize t cmap = none ↔
      ¬("time" ∈ (sanPre cmap t).header ∧ "mag" ∈ (sanPre cmap t).header) ∨
      (sanPre cmap t).rows.countP (rowGood (sanPre cmap t).header) = 0) := by
  have hlen : (sanInner (sanPre cmap t)).rows.length =
      (sanPre cmap t).rows.countP (rowGood (sanPre cmap t).header) := by
    unfold sanInner
    rw [fillStage_length, filterStage_length]
  constructor
  · intro out hout
    unfold sanitize_and_standardize at hout
    split at hout
    · next hcols =>
      split at hout
      · next hpos =>
        injection hout with he
        subst he
        refine ⟨?_, ?_, ?_⟩
        · have hl : (projectTo5 (sanInner (sanPre cmap t))).rows.length =
              (sanInner (sanPre cmap t)).rows.length := by
            simp [projectTo5]
          intro hnil
          rw [hnil] at hl
          simp at hl
          omega
        · simpa [projectTo5] using hlen
        · intro row hrow
          rcases List.mem_map.mp hrow with ⟨row0, hrow0, rfl⟩
          obtain ⟨rowt, _, hgood, hteq, hmeq⟩ :=
            sanInner_val (sanPre cmap t) hcols.1 hcols.2 row0 hrow0
          have hg : (valAtH (sanPre cmap t).header rowt "time").isNan = false ∧
              (valAtH (sanPre cmap t).header rowt "mag").isNan = false := by
            unfold rowGood at hgood
            constructor
            · rcases hb : (valAtH (sanPre cmap t).header rowt "time").isNan
              · rfl
              · rw [hb] at hgood; simp at hgood
            · rcases hb : (valAtH (sanPre cmap t).header rowt "mag").isNan
              · rfl
              · rw [hb] at hgood; simp at hgood
          constructor
          · show (valAtH fiveCols _ "time").isNan = false
            rw [proj_val_time, hteq]
            exact hg.1
          · show (valAtH fiveCols _ "mag").isNan = false
            rw [proj_val_mag, hmeq]
            exact hg.2
      · cases hout
    · cases hout
  · unfold sanitize_and_standardize
    split
    · next hcols =>
      split
      · next hpos =>
        constructor
        · intro h; cases h
        · intro h
          rcases h with h | h
          · exact absurd hcols h
          · rw [← hlen] at h; omega
      · next hpos =>
        constructor
        · intro _
          right
          rw [← hlen]
          omega
        · intro _; rfl
    · next hcols =>
      exact ⟨fun _ => Or.inl hcols, fun _ => rfl⟩

theorem c2_witness :
    outGB.rows.length =
      (sanPre [] tblGoodBad).rows.countP
        (rowGood (sanPre [] tblGoodBad).header) ∧
    (valAtH fiveCols rowGB "time").isNan = false ∧
    (valAtH fiveCols rowGB "mag").isNan = false :=
  ⟨((c2_amended tblGoodBad []).1 outGB (by decide)).2.1,
   ((c2_amended tblGoodBad []).1 outGB (by decide)).2.2 rowGB (by decide)⟩

/-- C10: every table a successful sanitize emits — and hence every
table any parser of the chain emits — has exactly the five columns
`time, mag, magerr, band, reference` in that order, with every band
cell coerced to a string. -/
theorem c10_output_shape :
    (∀ (t : Table) (cmap : List (String × String)) (out : Table),
      t.rect → sanitize_and_standardize t cmap = some out →
      out.header = fiveCols ∧
      ∀ row ∈ out.rows, ∃ s, cellAtH out.header row "band" = Cell.str s) ∧
    (∀ f : RawFile, f.rect → ∀ p ∈ ALL_PARSERS, ∀ out, p f = some out →
      out.header = fiveCols ∧
      ∀ row ∈ out.rows, ∃ s, cellAtH out.header row "band" = Cell.str s) := by
  have hsan : ∀ (t : Table) (cmap : List (String × String)) (out : Table),
      t.rect → sanitize_and_standardize t cmap = some out →
      out.header = fiveCols ∧
      ∀ row ∈ out.rows, ∃ s, cellAtH out.header row "band" = Cell.str s := by
    intro t cmap out hrect hout
    unfold sanitize_and_standardize at hout
    split at hout
    · next hcols =>
      split at hout
      · next hpos =>
        injection hout with he
        subst he
        refine ⟨rfl, ?_⟩
        intro row hrow
        rcases List.mem_map.mp hrow with ⟨row0, hrow0, rfl⟩
        obtain ⟨s, hs⟩ := sanInner_band_str (sanPre cmap t)
          (rect_sanPre cmap t hrect) row0 hrow0
        exact ⟨s, by rw [show (projectTo5 (sanInner (sanPre cmap t))).header =
          fiveCols from rfl, proj_cell_band, hs]⟩
      · cases hout
    · cases hout
  refine ⟨hsan, ?_⟩
  intro f hrect p hp out hout
  simp only [ALL_PARSERS, List.mem_cons, List.not_mem_nil, or_false] at hp
  have hvs : ∃ tbl cmap, tbl.rect ∧
      sanitize_and_standardize tbl cmap = some out := by
    rcases hp with rfl | rfl | rfl | rfl
    · unfold parse_csv at hout
      rcases Option.bind_eq_some.mp hout with ⟨x, hx, hsan2⟩
      exact ⟨x.1, x.2, prepCsv_rect f x hx, hsan2⟩
    · unfold parse_txt at hout
      rcases Option.bind_eq_some.mp hout with ⟨x, hx, hsan2⟩
      exact ⟨x.1, x.2, prepTxt_rect f x hx, hsan2⟩
    · unfold parse_notes_and_limits at hout
      rcases Option.bind_eq_some.mp hout with ⟨x, hx, hsan2⟩
      exact ⟨x.1, x.2, prepNotes_rect f x hx, hsan2⟩
    · unfold parse_fit_vizier at hout
      rcases Option.bind_eq_some.mp hout with ⟨x, hx, hsan2⟩
      exact ⟨x.1, x.2, prepFit_rect f x hrect hx, hsan2⟩
  obtain ⟨tbl, cmap, hrt, hsan2⟩ := hvs
  exact hsan tbl cmap out hrt hsan2

/-- A successful fit-file parse of the demo FITS file; its shape is the
canonical one. -/
theorem c10_witness :
    outFD.header = fiveCols ∧
    ∃ s, cellAtH outFD.header rowFD "band" = Cell.str s :=
  ⟨(c10_output_shape.2 fitsDemo (by decide) parse_fit_vizier
      (by
        unfold ALL_PARSERS
        exact List.mem_cons_of_mem _ (List.mem_cons_of_mem _
          (List.mem_cons_of_mem _ (List.mem_cons_self _ _))))
      outFD (by decide)).1,
   (c10_output_shape.2 fitsDemo (by decide) parse_fit_vizier
      (by
        unfold ALL_PARSERS
        exact List.mem_cons_of_mem _ (List.mem_cons_of_mem _
          (List.mem_cons_of_mem _ (List.mem_cons_self _ _))))
      outFD (by decide)).2 rowFD (by decide)⟩

/-- C3: when every parser of the chain returns `None` on a file, the
chain reaches the `Unparsable` terminal state (a recorded warning
event), contributes no table, and object processing continues with the
remaining files exactly as if the file were not declared.  Each parser
is a *total* `Option`-valued function — the embedding of the catch-all
`try/except: return None` wrappers — so the chain itself never
raises. -/
theorem c3_chain_never_aborts (fc : String → Option RawFile) (name : String)
    (f : RawFile) (hfc : fc name = some f)
    (hnone : ALL_PARSERS.all (fun p => (p f).isNone) = true)
    (xs ys : List String) :
    tryParse ALL_PARSERS f = none ∧
    collectFiles fc (xs ++ name :: ys) =
      ((collectFiles fc xs).1 ++ (collectFiles fc ys).1,
       (collectFiles fc xs).2 ++ Ev.fileUnparsable name ::
         (collectFiles fc ys).2) := by
  have hnp := tryParse_none_of_all ALL_PARSERS f hnone
  exact ⟨hnp, collectFiles_append_unparsable fc name f hfc hnp xs ys⟩

theorem c3_witness :
    tryParse ALL_PARSERS garbageFile = none ∧
    collectFiles fcMix (["photometry_source1_data1.fit"] ++ "bad.txt" :: []) =
      ((collectFiles fcMix ["photometry_source1_data1.fit"]).1 ++
         (collectFiles fcMix []).1,
       (collectFiles fcMix ["photometry_source1_data1.fit"]).2 ++
         Ev.fileUnparsable "bad.txt" :: (collectFiles fcMix []).2) :=
  c3_chain_never_aborts fcMix "bad.txt" garbageFile (by decide) (by decide)
    ["photometry_source1_data1.fit"] []

/-- C5: every row the conversion stage emits carries
`flux = zero_point_flux(system, band) * 10^(-0.4 * magnitude)` (with
`sncosmo`'s `band_mag_to_flux` modelled from the spec as exactly that
relation over an arbitrary zero-point table `zpF`), and
`flux_error = flux * 0.4 * ln 10 * magnitude_error` when the source
magnitude error is finite, else the sentinel `-999`. -/
theorem c5_flux_formula (zpF : String → String → ℝ) (sys : String)
    (rows : List SRow) (r : FinalRow ℝ)
    (hr : r ∈ fluxConvert ℝ (band_mag_to_flux zpF) (Real.log 10) sys rows) :
    r.flux = zpF sys r.band * Real.rpow 10 (-(2 / 5 : ℝ) * valToA ℝ r.mag) ∧
    (r.magerrRaw.isFinite = true →
      r.fluxerr = r.flux * (2 / 5 : ℝ) * Real.log 10 * valToA ℝ r.magerrRaw) ∧
    (r.magerrRaw.isFinite = false → r.fluxerr = (-999 : ℝ)) := by
  rcases List.mem_map.mp hr with ⟨s, _, rfl⟩
  dsimp only [convertRow, band_mag_to_flux]
  refine ⟨rfl, ?_, ?_⟩
  · intro hf
    rw [if_pos hf]
  · intro hf
    rw [if_neg (by rw [hf]; exact Bool.false_ne_true)]

theorem c5_witness :
    r5.flux = zpOne "vega" r5.band *
      Real.rpow 10 (-(2 / 5 : ℝ) * valToA ℝ r5.mag) ∧
    r5.fluxerr = r5.flux * (2 / 5 : ℝ) * Real.log 10 * valToA ℝ r5.magerrRaw :=
  ⟨(c5_flux_formula zpOne "vega" [s5] r5 (List.mem_singleton.mpr rfl)).1,
   (c5_flux_formula zpOne "vega" [s5] r5 (List.mem_singleton.mpr rfl)).2.1 rfl⟩

/-- C6 fails on the code: `parse_csv` (first in the chain) inspects no
structural fingerprint before a full parse.  This comma-separated file
carries every token of `parse_txt`'s fingerprint in its header, yet
`parse_csv` accepts it (and, being earlier, its result is what the
chain returns), while `parse_txt` itself fails on it. -/
theorem c6_counterexample :
    fpTxt fpCrossFile = true ∧
    parse_txt fpCrossFile = none ∧
    (parse_csv fpCrossFile).isSome = true ∧
    tryParse ALL_PARSERS fpCrossFile = parse_csv fpCrossFile := by
  decide

/-- C6 amended: only `parse_txt` (header-token set) and
`parse_fit_vizier` (second HDU with a `band` column) gate their parse
on a structural fingerprint and return `None` whenever it is absent;
`parse_csv` and `parse_notes_and_limits` attempt the full parse and
reject only on post-parse column/shape failures. -/
theorem c6_amended (f : RawFile) :
    (fpTxt f = false → parse_txt f = none) ∧
    (fpFit f = false → parse_fit_vizier f = none) := by
  constructor
  · intro hf
    cases f with
    | fits hdus => rfl
    | text lines =>
      simp only [fpTxt] at hf
      simp [parse_txt, prepTxt, hf]
  · intro hf
    cases f with
    | text lines => rfl
    | fits hdus =>
      match hdus with
      | [] => rfl
      | [a] => rfl
      | a :: dat :: rest =>
        simp only [fpFit, decide_eq_false_iff_not] at hf
        simp [parse_fit_vizier, prepFit, hf]

theorem c6_witness :
    parse_txt garbageFile = none ∧ parse_fit_vizier garbageFile = none :=
  ⟨(c6_amended garbageFile).1 (by decide), (c6_amended garbageFile).2 (by decide)⟩

/-- C7 fails on the code: the batch driver (lines 127-129) is a bare
`for` loop with no exception handling, so an exception escaping one
object's processing (here: the output write failing for `SN1939A`)
aborts the whole run even though the next object (`SN1957B`) would
process successfully on its own. -/
theorem c7_counterexample :
    isOkB (runBatch procDemo (SUPERNOVAE.take 2)) = false ∧
    isOkB (procDemo "SN1957B" infoDemo) = true := by
  decide

/-- C7 amended: failures `process_supernova` handles internally
(missing files, unparsable files, empty data, a metadata lookup
returning nothing) surface as normal returns, and for any per-object
processor that never lets an exception escape, the driver processes
every object and the runs are independent — the batch result is the
concatenation of the per-object traces.  An escaping exception,
however, aborts the remaining objects. -/
theorem c7_amended {T : Type}
    (proc : String → SnInfo → Except Unit (List Ev × T))
    (reg : List (String × SnInfo))
    (h : ∀ e ∈ reg, isOkB (proc e.1 e.2) = true) :
    runBatch proc reg =
      .ok ((reg.map (fun e => trOf (proc e.1 e.2))).flatten) := by
  induction reg with
  | nil => rfl
  | cons e rest ih =>
    obtain ⟨n, i⟩ := e
    have h1 := h (n, i) (List.mem_cons_self _ _)
    rcases hp : proc n i with err | r
    · rw [hp] at h1
      simp [isOkB] at h1
    · simp only [runBatch]
      rw [hp, ih (fun x hx => h x (List.mem_cons_of_mem _ hx))]
      simp [trOf, hp]

theorem c7_witness :
    runBatch procOk (SUPERNOVAE.take 2) =
      .ok (((SUPERNOVAE.take 2).map (fun e => trOf (procOk e.1 e.2))).flatten) :=
  c7_amended procOk (SUPERNOVAE.take 2) (by decide)

/-- C8 fails on the code: the metadata lookup (line 92) happens *before*
the flux conversion (lines 104-109), not after it.  In a successful run
the lookup event strictly precedes the conversion event, and when the
lookup fails the object is skipped with *no* conversion ever performed. -/
theorem c8_counterexample :
    trOf (procOk "SN1939A" infoDemo) =
      [.fileParsed "photometry_source1_data1.fit", .metadataLookup, .converted,
        .emitted] ∧
    (trOf (procOk "SN1939A" infoDemo)).findIdx (· == Ev.metadataLookup) <
      (trOf (procOk "SN1939A" infoDemo)).findIdx (· == Ev.converted) ∧
    process_supernova ℚ (fun _ _ _ => 0) 0 extOk extOk fcDemo none "SN1939A"
        infoDemo =
      .ok ([.fileParsed "photometry_source1_data1.fit", .metadataLookup],
        none) := by
  decide

/-- C8 amended: the external metadata lookup is a blocking call made at
most once per object (exactly once for objects whose data survives
normalization), placed after normalization and *before* conversion; a
lookup failure skips the object — no output, no conversion — with no
internal retry. -/
theorem skip_event_trace (fc : String → Option RawFile) (files : List String)
    (e0 : Ev) (h1 : (e0 == Ev.metadataLookup) = false)
    (h2 : (e0 == Ev.converted) = false) :
    ((collectFiles fc files).2 ++ [e0]).countP (· == Ev.metadataLookup) = 0 ∧
    Ev.metadataLookup ∉ (collectFiles fc files).2 ++ [e0] ∧
    Ev.converted ∉ (collectFiles fc files).2 ++ [e0] := by
  have hevs := collectFiles_evs fc files
  refine ⟨?_, ?_, ?_⟩
  · rw [List.countP_eq_zero]
    intro e he
    rcases List.mem_append.mp he with h' | h'
    · simp [(hevs e h').1]
    · rcases List.mem_singleton.mp h' with rfl
      simp [h1]
  · intro hm
    rcases List.mem_append.mp hm with h' | h'
    · have := (hevs _ h').1
      simp at this
    · rcases List.mem_singleton.mp h' with rfl
      simp at h1
  · intro hc
    rcases List.mem_append.mp hc with h' | h'
    · have := (hevs _ h').2
      simp at this
    · rcases List.mem_singleton.mp h' with rfl
      simp at h2

theorem c8_amended (α : Type) [DivisionRing α]
    (b2f : String → Val → String → α) (lnTen : α)
    (fc : String → Option RawFile) (meta : Option Unit) (name : String)
    (info : SnInfo) (tr : List Ev) (out : Option (List (FinalRow α)))
    (h : process_supernova α b2f lnTen extOk extOk fc meta name info =
      .ok (tr, out)) :
    tr.countP (· == Ev.metadataLookup) ≤ 1 ∧
    (Ev.metadataLookup ∈ tr → meta = none →
      out = none ∧ Ev.converted ∉ tr) ∧
    (Ev.converted ∈ tr →
      tr.findIdx (· == Ev.metadataLookup) <
        tr.findIdx (· == Ev.converted)) := by
  have hevs := collectFiles_evs fc info.files
  simp only [process_supernova] at h
  split at h
  · injection h with h2
    injection h2 with htr hout
    subst htr
    subst hout
    obtain ⟨hc0, hm0, hv0⟩ :=
      skip_event_trace fc info.files Ev.skippedNoData rfl rfl
    exact ⟨by omega, fun hm _ => absurd hm hm0, fun hc => absurd hc hv0⟩
  · split at h
    · injection h with h2
      injection h2 with htr hout
      subst htr
      subst hout
      obtain ⟨hc0, hm0, hv0⟩ :=
        skip_event_trace fc info.files Ev.skippedEmpty rfl rfl
      exact ⟨by omega, fun hm _ => absurd hm hm0, fun hc => absurd hc hv0⟩
    · have hcz : (collectFiles fc info.files).2.countP
          (· == Ev.metadataLookup) = 0 := by
        rw [List.countP_eq_zero]
        intro e he
        simp [(hevs e he).1]
      rcases meta with _ | u
      · dsimp only at h
        injection h with h2
        injection h2 with htr hout
        subst htr
        subst hout
        have hnoconv : Ev.converted ∉
            (collectFiles fc info.files).2 ++ [Ev.metadataLookup] := by
          intro hc
          rcases List.mem_append.mp hc with h' | h'
          · have := (hevs _ h').2
            simp at this
          · rcases List.mem_singleton.mp h' with h''
            cases h''
        refine ⟨?_, fun _ _ => ⟨rfl, hnoconv⟩, fun hc => absurd hc hnoconv⟩
        rw [List.countP_append, hcz]
        simp
      · dsimp only [extOk] at h
        injection h with h2
        injection h2 with htr hout
        subst htr
        subst hout
        have hassoc :
            (((collectFiles fc info.files).2 ++ [Ev.metadataLookup]) ++
                [Ev.converted]) ++ [Ev.emitted] =
              (collectFiles fc info.files).2 ++
                [Ev.metadataLookup, Ev.converted, Ev.emitted] := by
          simp
        refine ⟨?_, ?_, ?_⟩
        · rw [hassoc, List.countP_append, hcz]
          have : List.countP (· == Ev.metadataLookup)
              [Ev.metadataLookup, Ev.converted, Ev.emitted] = 1 := by decide
          omega
        · intro _ hmn
          cases hmn
        · intro _
          rw [hassoc]
          rw [findIdx_append_of_false _ _ _ (fun e he => (hevs e he).1),
            findIdx_append_of_false _ _ _ (fun e he => (hevs e he).2)]
          have e1 : List.findIdx (· == Ev.metadataLookup)
              [Ev.metadataLookup, Ev.converted, Ev.emitted] = 0 := by decide
          have e2 : List.findIdx (· == Ev.converted)
              [Ev.metadataLookup, Ev.converted, Ev.emitted] = 1 := by decide
          rw [e1, e2]
          omega

theorem c8_witness :
    tr8.countP (· == Ev.metadataLookup) ≤ 1 ∧
    tr8.findIdx (· == Ev.metadataLookup) < tr8.findIdx (· == Ev.converted) :=
  ⟨(c8_amended ℚ (fun _ _ _ => 0) 0 fcDemo (some ()) "SN1939A" infoDemo
      tr8 (some [fr9]) (by decide)).1,
   (c8_amended ℚ (fun _ _ _ => 0) 0 fcDemo (some ()) "SN1939A" infoDemo
      tr8 (some [fr9]) (by decide)).2.2 (by decide)⟩

/-- Every emitted row of a completed run carries the constant 25 and
the (U10-truncated) lower-cased system name. -/
theorem process_rows_zp (α : Type) [DivisionRing α]
    (b2f : String → Val → String → α) (lnTen : α)
    (lk wr : String → Except Unit Unit) (fc : String → Option RawFile)
    (meta : Option Unit) (name : String) (info : SnInfo) (tr : List Ev)
    (out : List (FinalRow α))
    (h : process_supernova α b2f lnTen lk wr fc meta name info =
      .ok (tr, some out)) :
    ∀ r ∈ out, r.zp = (25 : α) ∧
      r.zpsys = strTake (strToLower (magSysOf info)) 10 := by
  simp only [process_supernova] at h
  split at h
  · injection h with h2
    injection h2 with _ hout
    cases hout
  · split at h
    · injection h with h2
      injection h2 with _ hout
      cases hout
    · rcases meta with _ | u
      · dsimp only at h
        injection h with h2
        injection h2 with _ hout
        cases hout
      · dsimp only at h
        rcases hlk : lk (strToLower (magSysOf info)) with e | v
        · rw [hlk] at h
          cases h
        · rw [hlk] at h
          dsimp only at h
          rcases hwr : wr name with e | v2
          · rw [hwr] at h
            cases h
          · rw [hwr] at h
            dsimp only at h
            injection h with h2
            injection h2 with _ hout
            injection hout with hout2
            subst hout2
            intro r hr
            rcases List.mem_map.mp hr with ⟨s, _, rfl⟩
            exact ⟨rfl, rfl⟩

/-- C9: for every registry entry of `config.py` (whose magnitude
systems are all `"Vega"`), every row of the emitted canonical output
carries the fixed instrumental zero point 25.0 and the lower-cased
magnitude-system name. -/
theorem c9_output_zp_system (e : String × SnInfo) (he : e ∈ SUPERNOVAE)
    (α : Type) [DivisionRing α] (b2f : String → Val → String → α) (lnTen : α)
    (lk wr : String → Except Unit Unit) (fc : String → Option RawFile)
    (meta : Option Unit) (tr : List Ev) (out : List (FinalRow α))
    (h : process_supernova α b2f lnTen lk wr fc meta e.1 e.2 =
      .ok (tr, some out)) :
    ∀ r ∈ out, r.zp = (25 : α) ∧ r.zpsys = strToLower (magSysOf e.2) := by
  have hsys : magSysOf e.2 = "Vega" := by
    have hall : ∀ x ∈ SUPERNOVAE, magSysOf x.2 = "Vega" := by decide
    exact hall e he
  intro r hr
  obtain ⟨hzp, hzs⟩ :=
    process_rows_zp α b2f lnTen lk wr fc meta e.1 e.2 tr out h r hr
  refine ⟨hzp, ?_⟩
  rw [hzs, hsys]
  decide

theorem c9_witness :
    fr9.zp = (25 : ℚ) ∧ fr9.zpsys = strToLower (magSysOf infoDemo) :=
  c9_output_zp_system ("SN1939A", infoDemo) (by decide) ℚ (fun _ _ _ => 0) 0
    extOk extOk fcDemo (some ()) tr8 [fr9] (by decide) fr9 (by decide)

end Virgo
